import Mathlib

/-!
Shallow embedding of the softbody-dynamics simulation (src/softbody.js)
over exact real arithmetic.  p5.js vectors become a two-field real
structure; the in-place mutating methods of `node`, `softbody` and
`scene` become pure state-transforming functions.  Only the z component
of the p5 3-D angular-momentum vector is ever non-zero in the source
(it is produced by `cross` of two planar vectors), so it is modelled as
a single real scalar `angular_z`.
-/

noncomputable section

open Real

/-- Planar vector, the model of a p5.js `Vector` restricted to x/y. -/
@[ext]
structure Vec2 where
  x : ℝ
  y : ℝ

namespace Vec2

/-- `p5.Vector.add`. -/
def add (a b : Vec2) : Vec2 := ⟨a.x + b.x, a.y + b.y⟩

/-- `p5.Vector.sub`. -/
def sub (a b : Vec2) : Vec2 := ⟨a.x - b.x, a.y - b.y⟩

/-- `p5.Vector.mult` by a scalar. -/
def mult (a : Vec2) (s : ℝ) : Vec2 := ⟨a.x * s, a.y * s⟩

/-- `p5.Vector.div` by a scalar. -/
def divs (a : Vec2) (s : ℝ) : Vec2 := ⟨a.x / s, a.y / s⟩

/-- `p5.Vector.dot`. -/
def dot (a b : Vec2) : ℝ := a.x * b.x + a.y * b.y

/-- `p5.Vector.mag`. -/
def mag (a : Vec2) : ℝ := Real.sqrt (a.x ^ 2 + a.y ^ 2)

/-- `p5.Vector.dist`. -/
def dist (a b : Vec2) : ℝ := Real.sqrt ((a.x - b.x) ^ 2 + (a.y - b.y) ^ 2)

/-- `p5.Vector.normalize`: scale to unit length, leaving the zero vector
(the only vector of zero magnitude) unchanged. -/
def normalize (a : Vec2) : Vec2 := if a.mag = 0 then a else a.mult (1 / a.mag)

/-- `p5.Vector.rotate` by an angle in radians (rotation matrix form;
p5 computes the same value through `heading`/`mag`). -/
def rotate (a : Vec2) (ang : ℝ) : Vec2 :=
  ⟨a.x * Real.cos ang - a.y * Real.sin ang,
   a.x * Real.sin ang + a.y * Real.cos ang⟩

/-- The z component of `p5.Vector.cross` on two planar vectors. -/
def cross_z (a b : Vec2) : ℝ := a.x * b.y - a.y * b.x

/-- The zero vector, `createVector(0, 0)`. -/
def zero : Vec2 := ⟨0, 0⟩

end Vec2

/-- p5 `constrain(n, low, high)` = `max(min(n, high), low)`. -/
def constrain (n low high : ℝ) : ℝ := max (min n high) low

/-- p5 `radians(deg)`: degrees to radians. -/
def radians (deg : ℝ) : ℝ := deg * π / 180

/-- The `spring` record of the source: rest length, stiffness and the
index (into the owning body's node list) of the target node. -/
structure Spring where
  length : ℝ
  stiffness : ℝ
  index : ℕ

/-- The `node` record: position, mass, damping, springs, momentum. -/
structure Node where
  position : Vec2
  mass : ℝ
  damping : ℝ
  springs : List Spring
  momentum : Vec2

/-- Default node used for out-of-range list indexing. -/
def dNode : Node := ⟨Vec2.zero, 0, 0, [], Vec2.zero⟩

namespace Node

/-- `node.update`: integrate momentum into position. -/
def update (nd : Node) : Node :=
  { nd with position := nd.position.add nd.momentum }

/-- `node.integrate_external`: add the body's external force to momentum. -/
def integrate_external (nd : Node) (softbody_external : Vec2) : Node :=
  { nd with momentum := nd.momentum.add softbody_external }

/-- `node.integrate_springs`: for every spring, move momentum toward the
goal position (rest point of the spring on the line joining target node
and this node), scaled by stiffness over mass. -/
def integrate_springs (nd : Node) (nodes : List Node) : Node :=
  { nd with
    momentum := nd.springs.foldl (fun m goal_spring =>
      let goal_node := nodes.getD goal_spring.index dNode
      let goal_position :=
        (((nd.position.sub goal_node.position).normalize).mult
          goal_spring.length).add goal_node.position
      let goal_vector :=
        ((goal_position.sub nd.position).mult goal_spring.stiffness).divs nd.mass
      m.add goal_vector) nd.momentum }

/-- `node.apply_damping`: recover the local rigid momentum and damp only
the deviation from it.  The source rotates the local position by
`radians(softbody_angular.z)`. -/
def apply_damping (nd : Node) (softbody_angular_z : ℝ) (softbody_linear : Vec2)
    (softbody_position : Vec2) (average_distance : ℝ) : Node :=
  let local_position := nd.position.sub softbody_position
  let local_angular :=
    (((local_position.rotate (radians softbody_angular_z)).sub
      local_position).divs average_distance)
  let total_momentum := softbody_linear.add local_angular
  { nd with
    momentum := ((nd.momentum.sub total_momentum).mult (1 - nd.damping)).add
      total_momentum }

/-- `node.boundary_collide`: reflect and damp momentum on each axis that
is out of bounds, then clamp the position into `[0,width]×[0,height]`.
`width`/`height` are the p5 canvas globals, passed explicitly. -/
def boundary_collide (nd : Node) (friction width height : ℝ) : Node :=
  let m1 := if nd.position.x < 0 ∨ nd.position.x > width then
      (Vec2.mk (nd.momentum.x * -1) nd.momentum.y).mult (1 - friction)
    else nd.momentum
  let m2 := if nd.position.y < 0 ∨ nd.position.y > height then
      (Vec2.mk m1.x (m1.y * -1)).mult (1 - friction)
    else m1
  { nd with
    momentum := m2,
    position := ⟨constrain nd.position.x 0 width,
                 constrain nd.position.y 0 height⟩ }

end Node

/-- The derived-attribute state of a `softbody` together with its nodes.
The display colour is rendering-only and omitted. -/
structure Body where
  nodes : List Node
  angular_z : ℝ
  linear_momentum : Vec2
  position : Vec2
  external_force : Vec2
  mass : ℝ
  average_distance : ℝ
  radii : List ℝ
  normals : List Vec2

/-- Default body used for out-of-range list indexing. -/
def dBody : Body := ⟨[], 0, Vec2.zero, Vec2.zero, Vec2.zero, 0, 0, [], []⟩

namespace Body

/-- `softbody.reset_attributes`: zero every derived attribute and size
the `radii`/`normals` arrays to the node count (the source allocates
`new Array(n)` holes; the placeholder values are never read because
`calculate_surface` overwrites every slot). -/
def reset_attributes (b : Body) : Body :=
  { b with
    angular_z := 0
    linear_momentum := Vec2.zero
    position := Vec2.zero
    external_force := Vec2.zero
    mass := 0
    average_distance := 0
    radii := List.replicate b.nodes.length 0
    normals := List.replicate b.nodes.length Vec2.zero }

/-- `softbody.calculate_attributes`: pass 1 accumulates momentum,
mass-weighted position and mass sums onto the current field values and
normalizes; pass 2 uses the resulting centroid to accumulate average
distance and the z angular momentum. -/
def calculate_attributes (b : Body) : Body :=
  let n : ℝ := b.nodes.length
  let acc1 := b.nodes.foldl
    (fun (a : Vec2 × Vec2 × ℝ) current_node =>
      (a.1.add current_node.momentum,
       (a.2.1.add (current_node.position.mult current_node.mass)),
       a.2.2 + current_node.mass))
    (b.linear_momentum, b.position, b.mass)
  let linear_momentum := acc1.1.divs n
  let mass := acc1.2.2 / n
  let position := acc1.2.1.divs (mass * n)
  let acc2 := b.nodes.foldl
    (fun (a : ℝ × ℝ) current_node =>
      (a.1 + current_node.position.dist position,
       a.2 + Vec2.cross_z (current_node.position.sub position)
         current_node.momentum))
    (b.average_distance, b.angular_z)
  { b with
    linear_momentum := linear_momentum
    mass := mass
    position := position
    average_distance := acc2.1 / n
    angular_z := acc2.2 / n }

/-- `softbody.calculate_surface`: per node, average the 90°-rotated unit
edge vectors to the ring-previous and ring-next nodes and re-normalize;
record the distance to the centroid as the basis-function radius.  The
source's `(i-1) - l*floor((i-1)/l)` is the mathematical `(i-1) mod l`,
which for `i < l` equals `(i + l - 1) % l`. -/
def calculate_surface (b : Body) : Body :=
  let l := b.nodes.length
  { b with
    normals := (List.range l).map (fun i =>
      let prev := (b.nodes.getD ((i + l - 1) % l) dNode).position
      let curr := (b.nodes.getD i dNode).position
      let next := (b.nodes.getD ((i + 1) % l) dNode).position
      ((((prev.sub curr).rotate (π / 2)).normalize).add
        (((curr.sub next).rotate (π / 2)).normalize)).normalize)
    radii := (List.range l).map (fun i =>
      (b.nodes.getD i dNode).position.dist b.position) }

/-- `softbody.volume_field`: compact-support HRBF approximation; sums a
contribution for every node whose radius-normalized distance to the
query point lies in `[0, 1]`. -/
def volume_field (b : Body) (point : Vec2) (reg : ℝ) : ℝ :=
  (List.range b.nodes.length).foldl (fun hrbf i =>
    let position := (b.nodes.getD i dNode).position
    let radius := b.radii.getD i 0
    let normal := b.normals.getD i Vec2.zero
    let d := point.dist position
    let d_scl := d / radius
    if 0 ≤ d_scl ∧ d_scl ≤ 1 then
      let r_sqr := radius ^ 2
      let v1 := normal.mult (r_sqr / (20 + reg * r_sqr))
      let v2 := (point.sub position).mult (20 * (d - radius) ^ 3 / radius ^ 5)
      hrbf - v1.dot v2
    else hrbf) 0

end Body

/-- `node.collide_object`: sample the other body's volume field at this
node's position (the source call site leaves `reg` at its default 1);
if negative, kick momentum against this node's outward normal by
`force * |field|` and damp the whole momentum. -/
def Node.collide_object (nd : Node) (object : Body) (normal : Vec2)
    (damping force : ℝ) : Node :=
  let scalar := object.volume_field nd.position 1
  if scalar < 0 then
    { nd with
      momentum := (nd.momentum.sub (normal.mult (force * -scalar))).mult
        (1 - damping) }
  else nd

/-- Sum of a list of planar vectors. -/
def Vec2.vsum (l : List Vec2) : Vec2 := l.foldr Vec2.add Vec2.zero

theorem Vec2.add_zero' (a : Vec2) : a.add Vec2.zero = a := by
  ext <;> simp [Vec2.add, Vec2.zero]

theorem Vec2.add_assoc' (a b c : Vec2) :
    (a.add b).add c = a.add (b.add c) := by
  ext <;> (simp [Vec2.add]; ring)

/-- Folding additive contributions over a list equals adding their sum. -/
theorem Vec2.foldl_add_eq {α : Type} (f : α → Vec2) (l : List α) (m : Vec2) :
    l.foldl (fun acc s => acc.add (f s)) m = m.add (Vec2.vsum (l.map f)) := by
  induction l generalizing m with
  | nil => simp [Vec2.vsum, Vec2.add_zero']
  | cons s t ih =>
      simp only [List.foldl_cons, List.map_cons, Vec2.vsum, List.foldr_cons]
      rw [ih (m.add (f s))]
      rw [Vec2.add_assoc']
      rfl

/-- Real square root of nine. -/
theorem sqrt_nine : Real.sqrt 9 = 3 := by
  rw [show (9 : ℝ) = 3 ^ 2 by norm_num]
  exact Real.sqrt_sq (by norm_num)

/-- The per-spring momentum contribution as the source computes it: the
goal point lies at distance `length` from the target node along the
direction from the target node toward this node. -/
def code_spring_delta (nd : Node) (nodes : List Node) (goal_spring : Spring) :
    Vec2 :=
  let goal_node := nodes.getD goal_spring.index dNode
  let goal_position :=
    (((nd.position.sub goal_node.position).normalize).mult
      goal_spring.length).add goal_node.position
  ((goal_position.sub nd.position).mult goal_spring.stiffness).divs nd.mass

/-- Modelled from the spec's words for claim C2: the goal point built
from "the unit vector from this node to the target node", i.e. the
direction from this node toward the target node. -/
def claim2_spring_delta (nd : Node) (nodes : List Node) (goal_spring : Spring) :
    Vec2 :=
  let goal_node := nodes.getD goal_spring.index dNode
  let goal_position :=
    (((goal_node.position.sub nd.position).normalize).mult
      goal_spring.length).add goal_node.position
  ((goal_position.sub nd.position).mult goal_spring.stiffness).divs nd.mass

/-- Claim C2 (counterexample): with this node at the origin, one spring
of rest length 1 and stiffness 1 toward a target node at (3, 0), the
source adds (2, 0) to momentum while the claim's goal construction
("unit vector from this node to the target node") yields (4, 0). -/
theorem claim2_counterexample :
    ¬ ((Node.integrate_springs ⟨⟨0, 0⟩, 1, 0, [⟨1, 1, 1⟩], ⟨0, 0⟩⟩
        [⟨⟨0, 0⟩, 1, 0, [⟨1, 1, 1⟩], ⟨0, 0⟩⟩, ⟨⟨3, 0⟩, 1, 0, [], ⟨0, 0⟩⟩]).momentum =
      Vec2.add ⟨0, 0⟩ (claim2_spring_delta ⟨⟨0, 0⟩, 1, 0, [⟨1, 1, 1⟩], ⟨0, 0⟩⟩
        [⟨⟨0, 0⟩, 1, 0, [⟨1, 1, 1⟩], ⟨0, 0⟩⟩, ⟨⟨3, 0⟩, 1, 0, [], ⟨0, 0⟩⟩]
        ⟨1, 1, 1⟩)) := by
  intro h
  have hx := congrArg Vec2.x h
  simp only [Node.integrate_springs, claim2_spring_delta, List.foldl,
    List.getD_cons_succ, List.getD_cons_zero,
    Vec2.sub, Vec2.normalize, Vec2.mag] at hx
  rw [show ((0 : ℝ) - 3) ^ 2 + ((0 : ℝ) - 0) ^ 2 = 9 by norm_num,
    show ((3 : ℝ) - 0) ^ 2 + ((0 : ℝ) - 0) ^ 2 = 9 by norm_num,
    sqrt_nine] at hx
  norm_num [Vec2.mult, Vec2.add, Vec2.divs] at hx

/-- Claim C2 (amended): `integrate_springs` adds, for each spring, the
displacement from this node to the goal point — the unit vector from the
*target node toward this node*, scaled to the rest length, added to the
target position — scaled by stiffness over mass; no position changes. -/
theorem claim2_spring_integration (nd : Node) (nodes : List Node) :
    (nd.integrate_springs nodes).momentum =
      nd.momentum.add (Vec2.vsum (nd.springs.map (code_spring_delta nd nodes))) ∧
    (nd.integrate_springs nodes).position = nd.position := by
  constructor
  · unfold Node.integrate_springs code_spring_delta
    exact Vec2.foldl_add_eq _ nd.springs nd.momentum
  · rfl

/-- The local rigid momentum as the source computes it: the body's
linear momentum plus the local position rotated by the angular
z component *converted from degrees to radians*, minus the unrotated
local position, divided by the average radius. -/
def local_rigid_momentum (nd : Node) (softbody_angular_z : ℝ)
    (softbody_linear softbody_position : Vec2) (average_distance : ℝ) : Vec2 :=
  let local_position := nd.position.sub softbody_position
  softbody_linear.add
    (((local_position.rotate (radians softbody_angular_z)).sub
      local_position).divs average_distance)

/-- Modelled from the spec's words for claim C3: the rigid momentum with
the local position rotated by the raw angular-momentum z component,
without the source's degree-to-radian conversion. -/
def claim3_rigid_momentum (nd : Node) (softbody_angular_z : ℝ)
    (softbody_linear softbody_position : Vec2) (average_distance : ℝ) : Vec2 :=
  let local_position := nd.position.sub softbody_position
  softbody_linear.add
    (((local_position.rotate softbody_angular_z).sub
      local_position).divs average_distance)

/-- Modelled from the spec's words for claim C3: the claimed damped
momentum `R + (1 - damping) * (momentum - R)` with the claimed `R`. -/
def claim3_damped_momentum (nd : Node) (softbody_angular_z : ℝ)
    (softbody_linear softbody_position : Vec2) (average_distance : ℝ) : Vec2 :=
  let r := claim3_rigid_momentum nd softbody_angular_z softbody_linear
    softbody_position average_distance
  r.add ((nd.momentum.sub r).mult (1 - nd.damping))

/-- Claim C3 (counterexample): with the node at (1, 0), centroid at the
origin, zero linear momentum, zero node momentum, damping 1/2, average
radius 1 and angular z component 360, the source rotates by
`radians(360) = 2*pi` and leaves the momentum at (0, 0), while the
claimed formula rotates by 360 radians and yields
`((cos 360 - 1)/2, (sin 360)/2) ≠ (0, 0)`. -/
theorem claim3_counterexample :
    ¬ ((Node.apply_damping ⟨⟨1, 0⟩, 1, 1/2, [], ⟨0, 0⟩⟩ 360 ⟨0, 0⟩ ⟨0, 0⟩
        1).momentum =
      claim3_damped_momentum ⟨⟨1, 0⟩, 1, 1/2, [], ⟨0, 0⟩⟩ 360 ⟨0, 0⟩ ⟨0, 0⟩ 1) := by
  intro h
  have hrad : radians 360 = 2 * π := by
    unfold radians
    ring
  have hx := congrArg Vec2.x h
  simp only [Node.apply_damping, claim3_damped_momentum,
    claim3_rigid_momentum, hrad, Vec2.sub, Vec2.add, Vec2.mult, Vec2.divs,
    Vec2.rotate, Real.cos_two_pi, Real.sin_two_pi] at hx
  norm_num at hx
  have hcos : Real.cos 360 = 1 := by linarith
  obtain ⟨n, hn⟩ := (Real.cos_eq_one_iff 360).mp hcos
  have hpi1 : (3.14 : ℝ) < π := Real.pi_gt_d2
  have hpi2 : π < 3.15 := Real.pi_lt_d2
  rcases le_or_lt n 57 with h57 | h58
  · have hc : (n : ℝ) ≤ 57 := by exact_mod_cast h57
    nlinarith [Real.pi_pos]
  · have hc : (58 : ℝ) ≤ (n : ℝ) := by exact_mod_cast h58
    nlinarith [Real.pi_pos]

/-- Claim C3 (amended): `apply_damping` replaces the momentum by
`R + (1 - damping) * (momentum - R)` where `R` is the local rigid
momentum computed with the angular z component converted from degrees to
radians; a node whose momentum already equals `R` is left unchanged. -/
theorem claim3_damping_preserves_rigid (nd : Node) (az : ℝ) (lin pos : Vec2)
    (avg : ℝ) :
    (nd.apply_damping az lin pos avg).momentum =
      (local_rigid_momentum nd az lin pos avg).add
        ((nd.momentum.sub (local_rigid_momentum nd az lin pos avg)).mult
          (1 - nd.damping)) ∧
    (nd.momentum = local_rigid_momentum nd az lin pos avg →
      (nd.apply_damping az lin pos avg).momentum = nd.momentum) := by
  have key : (nd.apply_damping az lin pos avg).momentum =
      (local_rigid_momentum nd az lin pos avg).add
        ((nd.momentum.sub (local_rigid_momentum nd az lin pos avg)).mult
          (1 - nd.damping)) := by
    unfold Node.apply_damping local_rigid_momentum
    ext <;> (simp [Vec2.add, Vec2.sub, Vec2.mult, Vec2.divs]; ring)
  refine ⟨key, fun h => ?_⟩
  rw [key, ← h]
  ext <;> (simp [Vec2.add, Vec2.sub, Vec2.mult]; try ring)

/-- Witness for claim C3's amended fixed-point clause: a node sitting at
the centroid of a body with zero linear momentum has local rigid
momentum zero, so zero momentum is preserved. -/
theorem claim3_damping_preserves_rigid_witness :
    (⟨⟨0, 0⟩, 1, 1/2, [], ⟨0, 0⟩⟩ : Node).momentum =
      local_rigid_momentum ⟨⟨0, 0⟩, 1, 1/2, [], ⟨0, 0⟩⟩ 77 ⟨0, 0⟩ ⟨0, 0⟩ 1 ∧
    (Node.apply_damping ⟨⟨0, 0⟩, 1, 1/2, [], ⟨0, 0⟩⟩ 77 ⟨0, 0⟩ ⟨0, 0⟩
        1).momentum =
      (⟨⟨0, 0⟩, 1, 1/2, [], ⟨0, 0⟩⟩ : Node).momentum := by
  have hfix : (⟨⟨0, 0⟩, 1, 1/2, [], ⟨0, 0⟩⟩ : Node).momentum =
      local_rigid_momentum ⟨⟨0, 0⟩, 1, 1/2, [], ⟨0, 0⟩⟩ 77 ⟨0, 0⟩ ⟨0, 0⟩ 1 := by
    unfold local_rigid_momentum
    ext <;> simp [Vec2.add, Vec2.sub, Vec2.mult, Vec2.divs, Vec2.rotate]
  exact ⟨hfix,
    (claim3_damping_preserves_rigid ⟨⟨0, 0⟩, 1, 1/2, [], ⟨0, 0⟩⟩ 77 ⟨0, 0⟩
      ⟨0, 0⟩ 1).2 hfix⟩

/-- Claim C5: `collide_object` never moves the node; it leaves momentum
unchanged when the sampled field is non-negative, and otherwise kicks
momentum against the node's own outward normal by `force * |field|` and
scales the whole momentum by `1 - damping`. -/
theorem claim5_collide_momentum_kick (nd : Node) (object : Body)
    (normal : Vec2) (damping force : ℝ) :
    (nd.collide_object object normal damping force).position = nd.position ∧
    (0 ≤ object.volume_field nd.position 1 →
      (nd.collide_object object normal damping force).momentum =
        nd.momentum) ∧
    (object.volume_field nd.position 1 < 0 →
      (nd.collide_object object normal damping force).momentum =
        (nd.momentum.sub
          (normal.mult (force * |object.volume_field nd.position 1|))).mult
          (1 - damping)) := by
  refine ⟨?_, ?_, ?_⟩
  · unfold Node.collide_object
    by_cases h : object.volume_field nd.position 1 < 0 <;> simp [h]
  · intro h
    unfold Node.collide_object
    rw [if_neg (not_lt.mpr h)]
  · intro h
    unfold Node.collide_object
    rw [if_pos h, abs_of_neg h]

/-- One-node body used to exercise `volume_field` and `collide_object`
on concrete data: node at the origin, radius 5, outward normal (0, -1). -/
def sampleBody : Body :=
  ⟨[⟨⟨0, 0⟩, 1, 0, [], ⟨0, 0⟩⟩], 0, Vec2.zero, Vec2.zero, Vec2.zero, 0, 0,
    [5], [⟨0, -1⟩]⟩

/-- Node used to probe `sampleBody` from (0, 3), inside the body. -/
def sampleNode : Node := ⟨⟨0, 3⟩, 1, 0, [], ⟨1, 1⟩⟩

/-- The sample field value: `volume_field` of `sampleBody` at (0, 3). -/
theorem sampleBody_field_eval :
    sampleBody.volume_field sampleNode.position 1 = -(32/375) := by
  have hdist : Vec2.dist ⟨0, 3⟩ ⟨0, 0⟩ = 3 := by
    unfold Vec2.dist
    norm_num [sqrt_nine]
  unfold Body.volume_field sampleBody sampleNode
  simp only [List.length_cons, List.length_nil, List.range_succ,
    List.range_zero, List.nil_append, List.foldl_cons, List.foldl_nil,
    List.getD_cons_zero]
  rw [hdist]
  rw [if_pos (by norm_num : (0 : ℝ) ≤ 3 / 5 ∧ (3 : ℝ) / 5 ≤ 1)]
  simp only [Vec2.dot, Vec2.mult, Vec2.sub]
  norm_num

/-- Witness for claim C5 at the sample data: the field is negative there
and the momentum gets the claimed kick and damping. -/
theorem claim5_collide_momentum_kick_witness :
    sampleBody.volume_field sampleNode.position 1 < 0 ∧
    (sampleNode.collide_object sampleBody ⟨0, -1⟩ (7/10) 400).momentum =
      (sampleNode.momentum.sub
        (Vec2.mult ⟨0, -1⟩
          (400 * |sampleBody.volume_field sampleNode.position 1|))).mult
        (1 - 7/10) := by
  have hneg : sampleBody.volume_field sampleNode.position 1 < 0 := by
    rw [sampleBody_field_eval]
    norm_num
  exact ⟨hneg,
    (claim5_collide_momentum_kick sampleNode sampleBody ⟨0, -1⟩ (7/10)
      400).2.2 hneg⟩

/-- Folding conditional subtractions over a list equals adding the sum
of the negated contributions of the elements passing the filter. -/
theorem foldl_if_sub_eq_add_filtered_sum {α : Type} (c : α → Prop)
    [DecidablePred c] (t : α → ℝ) :
    ∀ (l : List α) (a : ℝ),
      l.foldl (fun acc i => if c i then acc - t i else acc) a =
        a + ((l.filter (fun i => decide (c i))).map (fun i => -(t i))).sum := by
  intro l
  induction l with
  | nil => intro a; simp
  | cons i tl ih =>
      intro a
      by_cases h : c i
      · rw [List.foldl_cons, if_pos h,
          List.filter_cons_of_pos (by simp [h]), List.map_cons,
          List.sum_cons, ih]
        ring
      · rw [List.foldl_cons, if_neg h,
          List.filter_cons_of_neg (by simp [h])]
        exact ih a

/-- Modelled from the spec's words for claim C1: the sum, over exactly
the nodes whose radius-normalized distance to the query point lies in
`[0, 1]`, of the negated dot product of the weighted normal and the
scaled offset. -/
def claim1_hrbf_sum (b : Body) (point : Vec2) (reg : ℝ) : ℝ :=
  (((List.range b.nodes.length).filter (fun i =>
      let d := point.dist (b.nodes.getD i dNode).position
      let radius := b.radii.getD i 0
      decide (0 ≤ d / radius ∧ d / radius ≤ 1))).map (fun i =>
      let position := (b.nodes.getD i dNode).position
      let radius := b.radii.getD i 0
      let normal := b.normals.getD i Vec2.zero
      let d := point.dist position
      Neg.neg ((normal.mult (radius ^ 2 / (20 + reg * radius ^ 2))).dot
        ((point.sub position).mult
          (20 * (d - radius) ^ 3 / radius ^ 5))))).sum

/-- Claim C1: `volume_field` returns exactly the compact-support HRBF
sum over the nodes whose radius-normalized distance lies in `[0, 1]`;
nodes beyond their radius of influence contribute nothing. -/
theorem claim1_volume_field_filtered (b : Body) (point : Vec2) (reg : ℝ) :
    b.volume_field point reg = claim1_hrbf_sum b point reg := by
  unfold Body.volume_field claim1_hrbf_sum
  rw [foldl_if_sub_eq_add_filtered_sum
    (fun i => 0 ≤ point.dist (b.nodes.getD i dNode).position /
        b.radii.getD i 0 ∧
      point.dist (b.nodes.getD i dNode).position / b.radii.getD i 0 ≤ 1)
    (fun i =>
      ((b.normals.getD i Vec2.zero).mult
        (b.radii.getD i 0 ^ 2 / (20 + reg * b.radii.getD i 0 ^ 2))).dot
      ((point.sub (b.nodes.getD i dNode).position).mult
        (20 * (point.dist (b.nodes.getD i dNode).position -
          b.radii.getD i 0) ^ 3 / b.radii.getD i 0 ^ 5)))]
  rw [zero_add]

theorem Vec2.zero_add' (a : Vec2) : Vec2.zero.add a = a := by
  ext <;> simp [Vec2.add, Vec2.zero]

/-- Closed form of the first accumulation pass of
`calculate_attributes`. -/
theorem calc_pass_one_spec (l : List Node) (a1 a2 : Vec2) (a3 : ℝ) :
    l.foldl (fun (a : Vec2 × Vec2 × ℝ) current_node =>
      (a.1.add current_node.momentum,
       a.2.1.add (current_node.position.mult current_node.mass),
       a.2.2 + current_node.mass)) (a1, a2, a3) =
    (a1.add (Vec2.vsum (l.map Node.momentum)),
     a2.add (Vec2.vsum (l.map (fun nd => nd.position.mult nd.mass))),
     a3 + (l.map Node.mass).sum) := by
  induction l generalizing a1 a2 a3 with
  | nil => simp [Vec2.vsum, Vec2.add_zero']
  | cons nd t ih =>
      simp only [List.foldl_cons, List.map_cons, Vec2.vsum, List.foldr_cons,
        List.sum_cons]
      rw [ih]
      refine Prod.ext ?_ (Prod.ext ?_ ?_) <;>
        (simp [Vec2.add_assoc', Vec2.add, Vec2.vsum]; try ring) <;>
        exact ⟨trivial, trivial⟩

/-- Mass-weighted position sum for a uniform mass. -/
theorem vsum_weighted_positions_uniform (l : List Node) (m : ℝ)
    (h : ∀ nd ∈ l, nd.mass = m) :
    Vec2.vsum (l.map (fun nd => nd.position.mult nd.mass)) =
      (Vec2.vsum (l.map Node.position)).mult m := by
  induction l with
  | nil => ext <;> simp [Vec2.vsum, Vec2.zero, Vec2.mult]
  | cons nd t ih =>
      have hm : nd.mass = m := h nd (List.mem_cons_self nd t)
      have ht : ∀ x ∈ t, Node.mass x = m := fun x hx =>
        h x (List.mem_cons_of_mem nd hx)
      simp only [List.map_cons, Vec2.vsum, List.foldr_cons] at ih ⊢
      rw [ih ht, hm]
      ext <;> simp [Vec2.add, Vec2.mult] <;> ring

/-- Mass sum for a uniform mass. -/
theorem sum_masses_uniform (l : List Node) (m : ℝ)
    (h : ∀ nd ∈ l, nd.mass = m) :
    (l.map Node.mass).sum = m * l.length := by
  induction l with
  | nil => simp
  | cons nd t ih =>
      have hm : nd.mass = m := h nd (List.mem_cons_self nd t)
      have ht : ∀ x ∈ t, Node.mass x = m := fun x hx =>
        h x (List.mem_cons_of_mem nd hx)
      simp only [List.map_cons, List.sum_cons, List.length_cons, ih ht, hm]
      push_cast
      ring

/-- Modelled from the spec's words for claim C8: the unweighted mean of
the node positions. -/
def claim8_unweighted_mean (nodes : List Node) : Vec2 :=
  (Vec2.vsum (nodes.map Node.position)).divs nodes.length

/-- Body with two coincident nodes of different masses. -/
def twoMassBody : Body :=
  ⟨[⟨⟨0, 0⟩, 1, 0, [], ⟨0, 0⟩⟩, ⟨⟨0, 0⟩, 2, 0, [], ⟨0, 0⟩⟩], 0, Vec2.zero,
    Vec2.zero, Vec2.zero, 0, 0, [], []⟩

/-- Claim C8 (counterexample to the "exactly when" direction): for a
body with two coincident nodes of masses 1 and 2, the computed centroid
coincides with the unweighted mean of positions although the node masses
are not all equal. -/
theorem claim8_counterexample :
    (Body.calculate_attributes (Body.reset_attributes twoMassBody)).position =
      claim8_unweighted_mean twoMassBody.nodes ∧
    ¬ (∀ nd1, nd1 ∈ twoMassBody.nodes → ∀ nd2, nd2 ∈ twoMassBody.nodes →
        nd1.mass = nd2.mass) := by
  constructor
  · simp only [Body.calculate_attributes, Body.reset_attributes,
      claim8_unweighted_mean, twoMassBody, Vec2.vsum, List.foldl_cons,
      List.foldl_nil, List.map_cons, List.map_nil, List.foldr_cons,
      List.foldr_nil, List.length_cons, List.length_nil]
    ext <;> simp [Vec2.add, Vec2.mult, Vec2.divs, Vec2.zero]
  · intro h
    have h12 := h ⟨⟨0, 0⟩, 1, 0, [], ⟨0, 0⟩⟩ (by simp [twoMassBody])
      ⟨⟨0, 0⟩, 2, 0, [], ⟨0, 0⟩⟩ (by simp [twoMassBody])
    norm_num at h12

/-- Claim C8 (amended): after `reset_attributes` and
`calculate_attributes`, the linear momentum is the arithmetic mean of
node momenta and the centroid is the mass-weighted mean of node
positions; when all node masses are equal (and non-zero) the centroid
coincides with the unweighted mean of positions. -/
theorem claim8_attribute_means (b : Body) (h : b.nodes ≠ []) :
    (Body.calculate_attributes (Body.reset_attributes b)).linear_momentum =
      (Vec2.vsum (b.nodes.map Node.momentum)).divs b.nodes.length ∧
    (Body.calculate_attributes (Body.reset_attributes b)).position =
      (Vec2.vsum (b.nodes.map (fun nd => nd.position.mult nd.mass))).divs
        ((b.nodes.map Node.mass).sum) ∧
    (∀ m : ℝ, m ≠ 0 → (∀ nd ∈ b.nodes, nd.mass = m) →
      (Body.calculate_attributes (Body.reset_attributes b)).position =
        claim8_unweighted_mean b.nodes) := by
  have hn : (b.nodes.length : ℝ) ≠ 0 := by
    have : 0 < b.nodes.length := List.length_pos.mpr h
    exact_mod_cast Nat.pos_iff_ne_zero.mp this
  have hlin : (Body.calculate_attributes
      (Body.reset_attributes b)).linear_momentum =
      (Vec2.vsum (b.nodes.map Node.momentum)).divs b.nodes.length := by
    simp only [Body.calculate_attributes, Body.reset_attributes]
    rw [calc_pass_one_spec]
    simp [Vec2.zero_add']
  have hpos : (Body.calculate_attributes (Body.reset_attributes b)).position =
      (Vec2.vsum (b.nodes.map (fun nd => nd.position.mult nd.mass))).divs
        ((b.nodes.map Node.mass).sum) := by
    simp only [Body.calculate_attributes, Body.reset_attributes]
    rw [calc_pass_one_spec]
    simp only [Vec2.zero_add', zero_add]
    rw [div_mul_cancel₀ _ hn]
  refine ⟨hlin, hpos, fun m hm hall => ?_⟩
  rw [hpos, vsum_weighted_positions_uniform b.nodes m hall,
    sum_masses_uniform b.nodes m hall]
  unfold claim8_unweighted_mean
  ext <;> (simp [Vec2.divs, Vec2.mult]; rw [mul_comm m]; rw [mul_div_mul_right _ _ hm])

/-- Witness for claim C8 at a two-node equal-mass body. -/
theorem claim8_attribute_means_witness :
    ((⟨[⟨⟨1, 2⟩, 2, 0, [], ⟨3, 4⟩⟩, ⟨⟨5, 6⟩, 2, 0, [], ⟨7, 8⟩⟩], 0, Vec2.zero,
        Vec2.zero, Vec2.zero, 0, 0, [], []⟩ : Body).nodes ≠ []) ∧
    (Body.calculate_attributes (Body.reset_attributes
        ⟨[⟨⟨1, 2⟩, 2, 0, [], ⟨3, 4⟩⟩, ⟨⟨5, 6⟩, 2, 0, [], ⟨7, 8⟩⟩], 0,
          Vec2.zero, Vec2.zero, Vec2.zero, 0, 0, [], []⟩)).linear_momentum =
      ⟨5, 6⟩ ∧
    (Body.calculate_attributes (Body.reset_attributes
        ⟨[⟨⟨1, 2⟩, 2, 0, [], ⟨3, 4⟩⟩, ⟨⟨5, 6⟩, 2, 0, [], ⟨7, 8⟩⟩], 0,
          Vec2.zero, Vec2.zero, Vec2.zero, 0, 0, [], []⟩)).position =
      ⟨3, 4⟩ := by
  have hne : (⟨[⟨⟨1, 2⟩, 2, 0, [], ⟨3, 4⟩⟩, ⟨⟨5, 6⟩, 2, 0, [], ⟨7, 8⟩⟩], 0,
      Vec2.zero, Vec2.zero, Vec2.zero, 0, 0, [], []⟩ : Body).nodes ≠ [] := by
    simp
  have h := claim8_attribute_means
    ⟨[⟨⟨1, 2⟩, 2, 0, [], ⟨3, 4⟩⟩, ⟨⟨5, 6⟩, 2, 0, [], ⟨7, 8⟩⟩], 0, Vec2.zero,
      Vec2.zero, Vec2.zero, 0, 0, [], []⟩ hne
  refine ⟨hne, ?_, ?_⟩
  · rw [h.1]
    ext <;> simp [Vec2.vsum, Vec2.add, Vec2.divs, Vec2.zero] <;> norm_num
  · rw [h.2.1]
    ext <;> simp [Vec2.vsum, Vec2.add, Vec2.divs, Vec2.mult, Vec2.zero] <;>
      norm_num

/-- The once-per-frame derived-attribute recomputation pipeline of
`scene.update`: `reset_attributes`, then `calculate_attributes`, then
`calculate_surface`. -/
def recompute (b : Body) : Body :=
  Body.calculate_surface (Body.calculate_attributes (Body.reset_attributes b))

/-- Claim C9: the recomputation pipeline is a pure function of the node
states — running it twice with no intervening node change produces
exactly the same derived attributes as running it once. -/
theorem claim9_recompute_idempotent (b : Body) :
    recompute (recompute b) = recompute b := rfl

/-- `softbody.integrate_forces`: per node in index order, integrate the
external force and then the springs; spring integration reads the other
nodes from the current (partially updated) node array, as in the
source's in-place loop. -/
def Body.integrate_forces (b : Body) : Body :=
  { b with
    nodes := (List.range b.nodes.length).foldl (fun ns i =>
      ns.set i (((ns.getD i dNode).integrate_external
        b.external_force).integrate_springs ns)) b.nodes }

/-- `softbody.damp_update_boundary`: per node, apply damping, integrate
momentum into position, then resolve the boundary collision. -/
def Body.damp_update_boundary (b : Body) (friction width height : ℝ) :
    Body :=
  { b with
    nodes := b.nodes.map (fun current_node =>
      ((current_node.apply_damping b.angular_z b.linear_momentum b.position
        b.average_distance).update).boundary_collide friction width height) }

/-- `softbody.collide_object`: collide every node of this body against
the other body's volume field, using this body's per-node normals. -/
def Body.collide_object (b : Body) (object : Body) (damping force : ℝ) :
    Body :=
  { b with
    nodes := (List.range b.nodes.length).map (fun i =>
      (b.nodes.getD i dNode).collide_object object
        (b.normals.getD i Vec2.zero) damping force) }

/-- The `scene` parameters: boundary friction, collision damping and
force, the force generators, and the canvas bounds. -/
structure Scene where
  boundary_friction : ℝ
  collison_damping : ℝ
  collision_force : ℝ
  forces : List (Body → ℕ → Vec2)
  width : ℝ
  height : ℝ

/-- The force-generator loop of `scene.update`: each generator
contributes a vector added onto the body's external-force accumulator. -/
def Scene.apply_forces (sc : Scene) (b : Body) (i : ℕ) : Body :=
  sc.forces.foldl (fun current_softbody f =>
    { current_softbody with
      external_force := current_softbody.external_force.add
        (f current_softbody i) }) b

/-- Steps 1-4 of `scene.update` for one body: forces, spring and
external integration, attribute and surface recomputation, then
damping, position update and boundary collision. -/
def Scene.process_body (sc : Scene) (i : ℕ) (b : Body) : Body :=
  (Body.calculate_surface (Body.calculate_attributes (Body.reset_attributes
    (Body.integrate_forces (sc.apply_forces b i))))).damp_update_boundary
    sc.boundary_friction sc.width sc.height

/-- One iteration of the body loop of `scene.update` at index `i`:
process body `i`, write it back, then collide it (in index order,
skipping itself) against every other body as currently stored. -/
def Scene.step_at (sc : Scene) (st : List Body) (i : ℕ) : List Body :=
  let b1 := sc.process_body i (st.getD i dBody)
  let st1 := st.set i b1
  let b2 := (st1.eraseIdx i).foldl (fun acc other =>
    acc.collide_object other sc.collison_damping sc.collision_force) b1
  st1.set i b2

/-- `scene.update`: run the body loop over all indices in list order. -/
def Scene.update (sc : Scene) (st : List Body) : List Body :=
  (List.range st.length).foldl sc.step_at st

/-- Modelled from the spec's words for claim C4: process bodies in list
order, colliding each processed body against the bodies already updated
this step (`done`) and the not-yet-updated bodies carrying last step's
state (`todo`'s tail). -/
def claim4_update_go (sc : Scene) (done todo : List Body) : List Body :=
  match todo with
  | [] => done
  | b :: rest =>
      let b1 := sc.process_body done.length b
      let b2 := (done ++ rest).foldl (fun acc other =>
        acc.collide_object other sc.collison_damping sc.collision_force) b1
      claim4_update_go sc (done ++ [b2]) rest

/-- Modelled from the spec's words for claim C4: the whole step in the
prefix-updated / suffix-stale presentation. -/
def claim4_update (sc : Scene) (st : List Body) : List Body :=
  claim4_update_go sc [] st

theorem getD_append_length {α : Type} (l1 : List α) (a : α) (l2 : List α)
    (d : α) : (l1 ++ a :: l2).getD l1.length d = a := by
  induction l1 with
  | nil => rfl
  | cons x t ih => simpa using ih

theorem set_append_length {α : Type} (l1 : List α) (a b : α) (l2 : List α) :
    (l1 ++ a :: l2).set l1.length b = l1 ++ b :: l2 := by
  induction l1 with
  | nil => rfl
  | cons x t ih => simp [ih]

theorem eraseIdx_append_length {α : Type} (l1 : List α) (a : α)
    (l2 : List α) : (l1 ++ a :: l2).eraseIdx l1.length = l1 ++ l2 := by
  induction l1 with
  | nil => rfl
  | cons x t ih => simp [ih]

/-- The body loop starting at index `done.length` on the state
`done ++ todo` agrees with the claimed prefix/suffix presentation. -/
theorem claim4_aux (sc : Scene) :
    ∀ (todo done : List Body),
      (List.range' done.length todo.length).foldl sc.step_at (done ++ todo) =
        claim4_update_go sc done todo := by
  intro todo
  induction todo with
  | nil => intro done; simp [claim4_update_go]
  | cons b rest ih =>
      intro done
      have hrange : List.range' done.length (b :: rest).length =
          done.length :: List.range' (done.length + 1) rest.length := rfl
      rw [hrange, List.foldl_cons]
      have hstep : sc.step_at (done ++ b :: rest) done.length =
          done ++ ((done ++ rest).foldl (fun acc other =>
            acc.collide_object other sc.collison_damping
              sc.collision_force) (sc.process_body done.length b)) :: rest := by
        simp only [Scene.step_at]
        rw [getD_append_length, set_append_length, eraseIdx_append_length,
          set_append_length]
      rw [hstep]
      have hgo : claim4_update_go sc done (b :: rest) =
          claim4_update_go sc (done ++ [(done ++ rest).foldl
            (fun acc other => acc.collide_object other sc.collison_damping
              sc.collision_force) (sc.process_body done.length b)]) rest := rfl
      rw [hgo]
      have := ih (done ++ [(done ++ rest).foldl (fun acc other =>
        acc.collide_object other sc.collison_damping sc.collision_force)
        (sc.process_body done.length b)])
      simpa [List.append_assoc] using this

/-- Indexing a node list and projecting the position agrees with
indexing the mapped position list. -/
theorem getD_map_position (l : List Node) (i : ℕ) :
    (l.getD i dNode).position = (l.map Node.position).getD i dNode.position := by
  induction l generalizing i with
  | nil => rfl
  | cons x t ih => cases i with
    | zero => rfl
    | succ j =>
        simp only [List.getD_cons_succ, List.map_cons]
        exact ih j

/-- Claim C4: `scene.update` processes the bodies in list order, and the
body each collision reads is the already-updated one for smaller
indices and the previous step's one for larger indices; moreover the
volume field consulted by the collision depends only on the other
body's node positions, radii and normals. -/
theorem claim4_sequential_collision_state (sc : Scene) (st : List Body) :
    sc.update st = claim4_update sc st ∧
    (∀ (o1 o2 : Body) (p : Vec2) (reg : ℝ),
      o1.nodes.map Node.position = o2.nodes.map Node.position →
      o1.radii = o2.radii → o1.normals = o2.normals →
      o1.volume_field p reg = o2.volume_field p reg) := by
  constructor
  · unfold Scene.update claim4_update
    rw [List.range_eq_range']
    simpa using claim4_aux sc st []
  · intro o1 o2 p reg hpos hr hn
    have hlen : o1.nodes.length = o2.nodes.length := by
      have := congrArg List.length hpos
      simpa using this
    have hgd : ∀ i : ℕ, (o1.nodes.getD i dNode).position =
        (o2.nodes.getD i dNode).position := by
      intro i
      rw [getD_map_position, getD_map_position, hpos]
    unfold Body.volume_field
    rw [hlen, hr, hn]
    have hfun : (fun (hrbf : ℝ) (i : ℕ) =>
        let position := (o1.nodes.getD i dNode).position
        let radius := o2.radii.getD i 0
        let normal := o2.normals.getD i Vec2.zero
        let d := p.dist position
        let d_scl := d / radius
        if 0 ≤ d_scl ∧ d_scl ≤ 1 then
          let r_sqr := radius ^ 2
          let v1 := normal.mult (r_sqr / (20 + reg * r_sqr))
          let v2 := (p.sub position).mult (20 * (d - radius) ^ 3 / radius ^ 5)
          hrbf - v1.dot v2
        else hrbf) = (fun (hrbf : ℝ) (i : ℕ) =>
        let position := (o2.nodes.getD i dNode).position
        let radius := o2.radii.getD i 0
        let normal := o2.normals.getD i Vec2.zero
        let d := p.dist position
        let d_scl := d / radius
        if 0 ≤ d_scl ∧ d_scl ≤ 1 then
          let r_sqr := radius ^ 2
          let v1 := normal.mult (r_sqr / (20 + reg * r_sqr))
          let v2 := (p.sub position).mult (20 * (d - radius) ^ 3 / radius ^ 5)
          hrbf - v1.dot v2
        else hrbf) := by
      funext hrbf i
      rw [hgd i]
    rw [hfun]

/-- Witness for claim C4's volume-field clause: two one-node bodies that
differ only in node momentum produce the same field value, and the
update equality holds on a concrete one-body scene. -/
theorem claim4_sequential_collision_state_witness :
    Scene.update ⟨1/2, 7/10, 400, [], 720, 480⟩ [sampleBody] =
      claim4_update ⟨1/2, 7/10, 400, [], 720, 480⟩ [sampleBody] ∧
    Body.volume_field sampleBody ⟨0, 3⟩ 1 =
      Body.volume_field ⟨[⟨⟨0, 0⟩, 1, 0, [], ⟨9, 9⟩⟩], 0, Vec2.zero,
        Vec2.zero, Vec2.zero, 0, 0, [5], [⟨0, -1⟩]⟩ ⟨0, 3⟩ 1 := by
  have h := claim4_sequential_collision_state ⟨1/2, 7/10, 400, [], 720, 480⟩
    [sampleBody]
  refine ⟨h.1, h.2 sampleBody ⟨[⟨⟨0, 0⟩, 1, 0, [], ⟨9, 9⟩⟩], 0, Vec2.zero,
    Vec2.zero, Vec2.zero, 0, 0, [5], [⟨0, -1⟩]⟩ ⟨0, 3⟩ 1 ?_ ?_ ?_⟩
  · rfl
  · rfl
  · rfl

/-- Claim C6: a node at (-5, 50) with momentum (-3, 0), boundary
friction 0.5 and width 720 (height at least 50) ends one
`boundary_collide` call with momentum (1.5, 0) and position (0, 50). -/
theorem claim6_boundary_scenario (m d : ℝ) (sp : List Spring) (height : ℝ)
    (hh : (50 : ℝ) ≤ height) :
    Node.boundary_collide ⟨⟨-5, 50⟩, m, d, sp, ⟨-3, 0⟩⟩ (1/2) 720 height =
      ⟨⟨0, 50⟩, m, d, sp, ⟨3/2, 0⟩⟩ := by
  unfold Node.boundary_collide
  have hx : ((-5 : ℝ) < 0 ∨ (-5 : ℝ) > 720) := by norm_num
  have hy : ¬ ((50 : ℝ) < 0 ∨ (50 : ℝ) > height) := by
    push_neg
    exact ⟨by norm_num, hh⟩
  simp only [hx, hy, if_pos, if_neg, not_false_iff]
  simp only [Vec2.mult, constrain]
  norm_num
  rw [min_eq_left hh]
  norm_num

/-- Witness for claim C6 at height 480. -/
theorem claim6_boundary_scenario_witness :
    (50 : ℝ) ≤ 480 ∧
    Node.boundary_collide ⟨⟨-5, 50⟩, 1, 0, [], ⟨-3, 0⟩⟩ (1/2) 720 480 =
      ⟨⟨0, 50⟩, 1, 0, [], ⟨3/2, 0⟩⟩ :=
  ⟨by norm_num, claim6_boundary_scenario 1 0 [] 480 (by norm_num)⟩

/-- Claim C7: `boundary_collide` leaves an in-bounds node unchanged, and
(for non-negative bounds) a second call after a first is a no-op. -/
theorem claim7_boundary_idempotent (nd : Node) (friction width height : ℝ) :
    ((0 ≤ nd.position.x ∧ nd.position.x ≤ width ∧
      0 ≤ nd.position.y ∧ nd.position.y ≤ height) →
      nd.boundary_collide friction width height = nd) ∧
    (0 ≤ width → 0 ≤ height →
      (nd.boundary_collide friction width height).boundary_collide
          friction width height =
        nd.boundary_collide friction width height) := by
  have inb : ∀ m : Node, 0 ≤ m.position.x → m.position.x ≤ width →
      0 ≤ m.position.y → m.position.y ≤ height →
      m.boundary_collide friction width height = m := by
    intro m h1 h2 h3 h4
    unfold Node.boundary_collide
    have hx : ¬ (m.position.x < 0 ∨ m.position.x > width) := by
      push_neg; exact ⟨not_lt.mp (not_lt.mpr h1), h2⟩
    have hy : ¬ (m.position.y < 0 ∨ m.position.y > height) := by
      push_neg; exact ⟨not_lt.mp (not_lt.mpr h3), h4⟩
    simp only [hx, hy, if_neg, not_false_iff]
    have cx : constrain m.position.x 0 width = m.position.x := by
      unfold constrain
      rw [min_eq_left h2, max_eq_left h1]
    have cy : constrain m.position.y 0 height = m.position.y := by
      unfold constrain
      rw [min_eq_left h4, max_eq_left h3]
    rw [cx, cy]
  refine ⟨fun h => inb nd h.1 h.2.1 h.2.2.1 h.2.2.2, fun hw hh => ?_⟩
  set nd1 := nd.boundary_collide friction width height with hnd1
  have hpx : nd1.position.x = constrain nd.position.x 0 width := by
    rw [hnd1]; unfold Node.boundary_collide; rfl
  have hpy : nd1.position.y = constrain nd.position.y 0 height := by
    rw [hnd1]; unfold Node.boundary_collide; rfl
  apply inb
  · rw [hpx]; exact le_max_right _ _
  · rw [hpx]; exact max_le (min_le_right _ _) hw
  · rw [hpy]; exact le_max_right _ _
  · rw [hpy]; exact max_le (min_le_right _ _) hh

/-- Witness for claim C7 at a concrete in-bounds node. -/
theorem claim7_boundary_idempotent_witness :
    ((0 ≤ (⟨⟨3, 4⟩, 1, 0, [], ⟨1, 2⟩⟩ : Node).position.x ∧
      (⟨⟨3, 4⟩, 1, 0, [], ⟨1, 2⟩⟩ : Node).position.x ≤ 720 ∧
      0 ≤ (⟨⟨3, 4⟩, 1, 0, [], ⟨1, 2⟩⟩ : Node).position.y ∧
      (⟨⟨3, 4⟩, 1, 0, [], ⟨1, 2⟩⟩ : Node).position.y ≤ 480) ∧
    (⟨⟨3, 4⟩, 1, 0, [], ⟨1, 2⟩⟩ : Node).boundary_collide (1/2) 720 480 =
      ⟨⟨3, 4⟩, 1, 0, [], ⟨1, 2⟩⟩) ∧
    ((⟨⟨3, 4⟩, 1, 0, [], ⟨1, 2⟩⟩ : Node).boundary_collide (1/2) 720
        480).boundary_collide (1/2) 720 480 =
      (⟨⟨3, 4⟩, 1, 0, [], ⟨1, 2⟩⟩ : Node).boundary_collide (1/2) 720 480 := by
  have h := claim7_boundary_idempotent ⟨⟨3, 4⟩, 1, 0, [], ⟨1, 2⟩⟩ (1/2) 720 480
  have hb : (0 : ℝ) ≤ (⟨⟨3, 4⟩, 1, 0, [], ⟨1, 2⟩⟩ : Node).position.x ∧
      (⟨⟨3, 4⟩, 1, 0, [], ⟨1, 2⟩⟩ : Node).position.x ≤ 720 ∧
      0 ≤ (⟨⟨3, 4⟩, 1, 0, [], ⟨1, 2⟩⟩ : Node).position.y ∧
      (⟨⟨3, 4⟩, 1, 0, [], ⟨1, 2⟩⟩ : Node).position.y ≤ 480 := by
    refine ⟨by norm_num, by norm_num, by norm_num, by norm_num⟩
  exact ⟨⟨hb, h.1 hb⟩, h.2 (by norm_num) (by norm_num)⟩

/-- Claim C10: a node out of bounds on both axes gets the
`(1 - friction)` scaling applied twice, once per axis branch, giving
momentum `(-mx*(1-f)^2, -my*(1-f)^2)`. -/
theorem claim10_double_friction (nd : Node) (friction width height : ℝ)
    (hx : nd.position.x < 0 ∨ nd.position.x > width)
    (hy : nd.position.y < 0 ∨ nd.position.y > height) :
    (nd.boundary_collide friction width height).momentum =
      ⟨-nd.momentum.x * (1 - friction) ^ 2,
       -nd.momentum.y * (1 - friction) ^ 2⟩ := by
  unfold Node.boundary_collide
  simp only [hx, hy, if_pos, Vec2.mult]
  ext <;> ring

/-- Witness for claim C10 at a concrete doubly-out-of-bounds node. -/
theorem claim10_double_friction_witness :
    (((-1 : ℝ) < 0 ∨ (-1 : ℝ) > 720) ∧ ((-2 : ℝ) < 0 ∨ (-2 : ℝ) > 480)) ∧
    ((⟨⟨-1, -2⟩, 1, 0, [], ⟨2, 3⟩⟩ : Node).boundary_collide (1/2) 720
        480).momentum =
      ⟨-2 * (1 - 1/2) ^ 2, -3 * (1 - 1/2) ^ 2⟩ := by
  refine ⟨⟨Or.inl (by norm_num), Or.inl (by norm_num)⟩, ?_⟩
  have h := claim10_double_friction ⟨⟨-1, -2⟩, 1, 0, [], ⟨2, 3⟩⟩ (1/2) 720 480
    (Or.inl (by norm_num)) (Or.inl (by norm_num))
  rw [h]

end
